import Mathlib

/-!
# Verification of the offline meeting transcriber core

Shallow embedding of the dual-stream capture/mix pipeline
(`recorder.py`: `AudioRecorder._combine_audio`, `AudioRecorder.stop_recording`)
and the diarization merge/cluster/format logic
(`speaker_diarizer.py`: `SpeakerDiarizer._merge_segments`,
`SpeakerDiarizer._cluster_speakers`, `SpeakerDiarizer.format_output`).

Machine reals (Python floats) are modelled by exact rationals `ℚ`; int16 PCM
samples by unbounded `ℤ` (all arithmetic performed by the code on in-range
int16 data is exact, and numpy's `astype(np.int16)` float-to-int cast is
truncation toward zero, i.e. `Int.tdiv`).  Python exceptions are modelled with
`Except String`.
-/

namespace OfflineMeetingTranscriber

/-! ### Diarization data model (`speaker_diarizer.py`)

A transcript/diarization segment dictionary `{'start': .., 'end': .., 'speaker': .., 'text': ..}`.
The Python key `end` is a Lean keyword, rendered here as `stop`. -/

structure Segment where
  start : ℚ
  stop : ℚ
  speaker : String
  text : String
deriving DecidableEq, Repr

/-- Default dictionary value used for out-of-range heap reads in the
mutation model (never actually read in the verified runs). -/
def defaultSeg : Segment := ⟨0, 0, "", ""⟩

/-- Default `gap_tolerance` of `SpeakerDiarizer.__init__` (2.0 seconds). -/
def defaultGapTolerance : ℚ := 2

/-- The walk of `SpeakerDiarizer._merge_segments` (lines 126-137), after the
head of the list has been taken as the initial `current`:
`current` extends with the next segment when the speakers are equal and
`segment['start'] - current['end'] <= gap_tolerance`; otherwise `current`
is emitted and the next segment (copied) becomes `current`. -/
def mergeLoop (tol : ℚ) (current : Segment) : List Segment → List Segment
  | [] => [current]
  | seg :: rest =>
    if current.speaker = seg.speaker ∧ seg.start - current.stop ≤ tol then
      mergeLoop tol { current with stop := seg.stop, text := current.text ++ " " ++ seg.text } rest
    else
      current :: mergeLoop tol seg rest

/-- `SpeakerDiarizer._merge_segments` (lines 118-138): empty input gives `[]`,
otherwise `current = segments[0].copy()` seeds the walk.  (Record values are
immutable in Lean, so the `.copy()` calls are identities here; the mutation
behaviour itself is verified separately on the explicit-heap model below.) -/
def mergeSegments (tol : ℚ) : List Segment → List Segment
  | [] => []
  | s :: rest => mergeLoop tol s rest

/-- The separation condition holding between two adjacent *output* turns of
the merge: the second one did not extend the first. -/
def splitsTurn (tol : ℚ) (a b : Segment) : Prop :=
  ¬(a.speaker = b.speaker ∧ b.start - a.stop ≤ tol)

/-! ### Explicit-heap model of `_merge_segments`

Python dictionaries are mutable heap objects.  To state the frame property
(the input dictionaries are never mutated) we re-embed `_merge_segments` over
an explicit heap: a list of `Segment` records addressed by position.
`segments[0].copy()` / `segment.copy()` allocate a fresh cell at the end of
the heap; `current['end'] = ...` and `current['text'] += ...` update the
current cell in place. -/

def heapGet (heap : List Segment) (a : ℕ) : Segment := heap.getD a defaultSeg

/-- Heap-level walk of `_merge_segments` lines 126-137.  `curAddr` is the heap
address of the `current` dictionary (always a `.copy()`-allocated cell).
Returns the final heap and the addresses making up `merged` (the `current`
address is appended on exit, line 137). -/
def mergeLoopH (tol : ℚ) (heap : List Segment) (curAddr : ℕ) :
    List ℕ → List Segment × List ℕ
  | [] => (heap, [curAddr])
  | a :: rest =>
    let cur := heapGet heap curAddr
    let seg := heapGet heap a
    if cur.speaker = seg.speaker ∧ seg.start - cur.stop ≤ tol then
      -- current['end'] = segment['end']; current['text'] += " " + segment['text']
      let heap' := heap.set curAddr { cur with stop := seg.stop, text := cur.text ++ " " ++ seg.text }
      mergeLoopH tol heap' curAddr rest
    else
      -- merged.append(current); current = segment.copy()
      let heap' := heap ++ [seg]
      let res := mergeLoopH tol heap' heap.length rest
      (res.1, curAddr :: res.2)

/-- Heap-level `_merge_segments`: `current = segments[0].copy()` allocates the
first working cell, then the walk runs over the remaining addresses. -/
def mergeSegmentsH (tol : ℚ) (heap : List Segment) : List ℕ → List Segment × List ℕ
  | [] => (heap, [])
  | a :: rest => mergeLoopH tol (heap ++ [heapGet heap a]) heap.length rest

/-! ### Clustering (`SpeakerDiarizer._cluster_speakers`, lines 84-116)

The agglomerative-clustering + silhouette-scoring attempt for a candidate
cluster count is performed by the external sklearn collaborator inside a
`try`; it is modelled as a parameter `attempt : ℕ → Option (List ℕ × ℚ)`
returning the labels and silhouette score, or `none` when the attempt raised
(the `except` branch just continues the loop). -/

/-- One iteration of the `for n_clusters in range(2, max_clusters + 1)` loop
(lines 93-112): a failed attempt leaves `(best_labels, best_score)` alone,
a successful one replaces them when its score is strictly greater. -/
def clusterStep (attempt : ℕ → Option (List ℕ × ℚ))
    (acc : Option (List ℕ) × ℚ) (k : ℕ) : Option (List ℕ) × ℚ :=
  match attempt k with
  | none => acc
  | some (labels, score) => if score > acc.2 then (some labels, score) else acc

def clusterSpeakers (attempt : ℕ → Option (List ℕ × ℚ)) (nEmb : ℕ) : List ℕ :=
  if nEmb ≤ 3 then
    -- `return list(range(len(embeddings)))`
    List.range nEmb
  else
    -- `for n_clusters in range(2, max_clusters + 1)` with `max_clusters = min(6, len(embeddings))`,
    -- `best_score` starting at -1 and `best_labels` at None; a final None
    -- falls back to one cluster per embedding (line 116)
    let best :=
      (List.range' 2 (min 6 nEmb - 1)).foldl (clusterStep attempt)
        ((none : Option (List ℕ)), (-1 : ℚ))
    match best.1 with
    | some labels => labels
    | none => List.range nEmb

/-! ### Output formatting (`SpeakerDiarizer.format_output`, lines 196-225) -/

/-- Python `f"{n:02d}"`: decimal rendering zero-padded to width 2. -/
def pad2 (n : ℤ) : String :=
  if 0 ≤ n ∧ n < 10 then "0" ++ toString n else toString n

/-- Python `str.split(sep)` for a one-character separator, on the character
list of the string (structural recursion so that concrete instances reduce). -/
def splitOnChar (c : Char) : List Char → List (List Char)
  | [] => [[]]
  | x :: xs =>
    match splitOnChar c xs with
    | [] => [[]]
    | g :: gs => if x = c then [] :: g :: gs else (x :: g) :: gs

/-- Python `segment['speaker'].split('_')[1]` (line 211): the part of the
label after the first underscore.  (On a label without an underscore Python
would raise `IndexError`; well-formed labels always have one.) -/
def fieldAfterUnderscore (s : String) : String :=
  String.mk ((splitOnChar '_' s.data).getD 1 [])

/-- One line of `format_output` (lines 209-216).  Python `int(q // 60)` is
`⌊q / 60⌋`; `int(q % 60)` is the floor of `q - 60 * ⌊q / 60⌋` (the Python
float modulus is nonnegative here, so `int` truncation is a floor). -/
def formatLine (s : Segment) : String :=
  let startF := pad2 ⌊s.start / 60⌋ ++ ":" ++ pad2 ⌊s.start - 60 * ((⌊s.start / 60⌋ : ℤ) : ℚ)⌋
  let stopF := pad2 ⌊s.stop / 60⌋ ++ ":" ++ pad2 ⌊s.stop - 60 * ((⌊s.stop / 60⌋ : ℤ) : ℚ)⌋
  let num := fieldAfterUnderscore s.speaker
  if s.text ≠ "" then
    "SPEAKER " ++ num ++ " (" ++ startF ++ " - " ++ stopF ++ "): " ++ s.text
  else
    "SPEAKER " ++ num ++ " (" ++ startF ++ " - " ++ stopF ++ ")"

/-- `format_output`: builds one line per segment in order and joins them with
a single newline (`"\n".join(lines)`, line 218). -/
def formatOutput (segments : List Segment) : String :=
  String.intercalate "\n" (segments.map formatLine)

/-- Spec-side rendering of one turn, written from the amended formatting
contract: `SPEAKER <NN> (MM:SS - MM:SS): <text>` where `MM = ⌊t / 60⌋`
zero-padded to at least two digits (minutes keep growing past 59 — there is
no switch to an `HH:MM:SS` form), `SS = ⌊t⌋ mod 60`, `<NN>` is the part of
the speaker label after the underscore, and a turn with empty text drops the
`: <text>` tail.  To be compared with `formatLine`. -/
def specLine (s : Segment) : String :=
  let clock (q : ℚ) : String := pad2 ⌊q / 60⌋ ++ ":" ++ pad2 (⌊q⌋ % 60)
  let num := fieldAfterUnderscore s.speaker
  let base := "SPEAKER " ++ num ++ " (" ++ clock s.start ++ " - " ++ clock s.stop ++ ")"
  if s.text ≠ "" then base ++ ": " ++ s.text else base

/-- Spec-side rendering of the whole output: the turn lines in chronological
(input) order, joined by single newlines. -/
def specRender (turns : List Segment) : String :=
  String.intercalate "\n" (turns.map specLine)

/-! ### Recorder data model (`recorder.py`)

A captured stream: the list of chunks appended by the capture callback
(`self.mic_audio_data` / `self.sys_audio_data`), the negotiated sample rate
and channel count.  Chunks are modelled flat (interleaved when stereo), the
1-D representation produced by the PyAudio path; the 2-D branch of
`_combine_audio` averages channels the same way. -/

structure StreamData where
  chunks : List (List ℤ)
  rate : ℕ
  channels : ℕ
deriving DecidableEq, Repr

/-- Which file a `_save_audio_int16` call targets: `RECORDING_FILE`, or the
`_mic.wav` / `_sys.wav` names derived from it in the fallback branch. -/
inductive ArtifactTag where
  | recording
  | micRaw
  | sysRaw
deriving DecidableEq, Repr

/-- One `_save_audio_int16(audio, file, rate, channels)` call: the persisted
samples together with the header parameters. -/
structure Artifact where
  tag : ArtifactTag
  samples : List ℤ
  rate : ℕ
  channels : ℕ
deriving DecidableEq, Repr

/-- Channel averaging of interleaved stereo
(`audio.reshape(-1, 2).mean(axis=1).astype(np.int16)`, lines 353/367):
numpy's `mean` is exact on int16 pairs and `astype(np.int16)` truncates
toward zero. -/
def deinterleaveAvg : List ℤ → List ℤ
  | l :: r :: rest => Int.tdiv (l + r) 2 :: deinterleaveAvg rest
  | _ => []

/-- The mono-collapse branch of `_combine_audio` (lines 341-367) on flat
data: a stream tagged stereo is de-interleaved and averaged —
`reshape(-1, 2)` raises `ValueError` on odd length — and anything else is
used as is. -/
def toMono (data : List ℤ) (channels : ℕ) : Except String (List ℤ) :=
  if channels = 2 then
    if data.length % 2 = 0 then Except.ok (deinterleaveAvg data)
    else Except.error "cannot reshape array"
  else Except.ok data

/-- Output length of the external `librosa.resample` collaborator:
`ceil(n * target_sr / orig_sr)` samples (librosa's documented fixed output
length; the spec's §8 duration law `length/target_sr ≈ n/orig_sr` within one
sample follows from it). -/
def resampleLen (n orig tgt : ℕ) : ℕ := (n * tgt + orig - 1) / orig

/-- Modelled from the spec: the external `librosa.resample` collaborator
(`recorder.py` lines 382-386 call it as a black box).  Only its output
*length* matters to the claims below; sample values are taken by
nearest-index so the definition stays executable. -/
def resampleModel (xs : List ℤ) (orig tgt : ℕ) : List ℤ :=
  (List.range (resampleLen xs.length orig tgt)).map fun i => xs.getD (i * orig / tgt) 0

/-- The body of the `try` block of `AudioRecorder._combine_audio`
(lines 333-412), parametrized by the resampler (the external librosa call can
itself raise).  Faithful points: durations are computed from the *pre-resample*
lengths (lines 373-374 run before line 379); a zero sample rate would raise
`ZeroDivisionError` in Python; `int(target_duration * sys_rate)` is a floor
since the value is nonnegative; numpy raises on adding arrays of different
lengths (the lemmas below show the lengths always agree on this path); the
50/50 mix `((mic + sys) / 2).astype(np.int16)` truncates toward zero. -/
def combineInner (resample : List ℤ → ℕ → ℕ → Except String (List ℤ))
    (micData sysData : List ℤ) (micRate sysRate micCh sysCh : ℕ) :
    Except String (List ℤ) :=
  match toMono micData micCh with
  | Except.error e => Except.error e
  | Except.ok micMono =>
    match toMono sysData sysCh with
    | Except.error e => Except.error e
    | Except.ok sysMono =>
      if micRate = 0 ∨ sysRate = 0 then Except.error "ZeroDivisionError"
      else
        let micDur : ℚ := micMono.length / micRate
        let sysDur : ℚ := sysMono.length / sysRate
        match (if micRate ≠ sysRate then resample micMono micRate sysRate else Except.ok micMono) with
        | Except.error e => Except.error e
        | Except.ok micRes =>
          let targetSamples : ℕ := (⌊min micDur sysDur * sysRate⌋).toNat
          let micAligned := micRes.take targetSamples
          let sysAligned := sysMono.take targetSamples
          if micAligned.length = sysAligned.length then
            Except.ok (List.zipWith (fun a b => Int.tdiv (a + b) 2) micAligned sysAligned)
          else Except.error "operands could not be broadcast together"

/-- `AudioRecorder._combine_audio` (lines 330-422): on success one combined
recording is saved at the system rate, mono; any exception inside the `try`
is caught and each non-empty stream's raw concatenation is saved separately
at its own rate and channel count. -/
def combineAudio (resample : List ℤ → ℕ → ℕ → Except String (List ℤ))
    (mic sys : StreamData) : List Artifact :=
  match combineInner resample mic.chunks.flatten sys.chunks.flatten
      mic.rate sys.rate mic.channels sys.channels with
  | Except.ok combined => [⟨ArtifactTag.recording, combined, sys.rate, 1⟩]
  | Except.error _ =>
    (if mic.chunks = [] then []
     else [⟨ArtifactTag.micRaw, mic.chunks.flatten, mic.rate, mic.channels⟩]) ++
    (if sys.chunks = [] then []
     else [⟨ArtifactTag.sysRaw, sys.chunks.flatten, sys.rate, sys.channels⟩])

/-- The total model resampler wrapped as a non-raising collaborator. -/
def resampleOk : List ℤ → ℕ → ℕ → Except String (List ℤ) :=
  fun xs orig tgt => Except.ok (resampleModel xs orig tgt)

/-- A resampler collaborator that always raises — used to exercise the
exception path of `_combine_audio`'s `try` block on a concrete run. -/
def failingResample : List ℤ → ℕ → ℕ → Except String (List ℤ) :=
  fun _ _ _ => Except.error "resample failed"

/-- The four ways the saving dispatch of `stop_recording` can resolve;
`noAudioCaptured` is the `else` branch logging "No audio was recorded!". -/
inductive SaveOutcome where
  | combinedSave
  | micOnly
  | sysOnly
  | noAudioCaptured
deriving DecidableEq, Repr

/-- The saving dispatch of `AudioRecorder.stop_recording` (lines 283-306):
both streams non-empty → combine; exactly one non-empty → save it alone to
`RECORDING_FILE`; neither → no file is written at all. -/
def stopRecording (resample : List ℤ → ℕ → ℕ → Except String (List ℤ))
    (mic sys : StreamData) : SaveOutcome × List Artifact :=
  if mic.chunks ≠ [] ∧ sys.chunks ≠ [] then
    (SaveOutcome.combinedSave, combineAudio resample mic sys)
  else if mic.chunks ≠ [] then
    (SaveOutcome.micOnly, [⟨ArtifactTag.recording, mic.chunks.flatten, mic.rate, mic.channels⟩])
  else if sys.chunks ≠ [] then
    (SaveOutcome.sysOnly, [⟨ArtifactTag.recording, sys.chunks.flatten, sys.rate, sys.channels⟩])
  else
    (SaveOutcome.noAudioCaptured, [])

/-! ## Theorems -/

/-- C3: walking labeled segments in order, a segment extends the currently
open turn exactly when its speaker label equals the turn's label and its
start minus the turn's end is at most the gap tolerance; extending sets the
turn's end to the segment's end and space-joins the texts; a gap of exactly
the tolerance merges, and a strictly larger gap opens a new turn. -/
theorem merge_extension_rule (tol : ℚ) (cur seg : Segment) (rest : List Segment) :
    (mergeLoop tol cur (seg :: rest) =
      if cur.speaker = seg.speaker ∧ seg.start - cur.stop ≤ tol then
        mergeLoop tol ⟨cur.start, seg.stop, cur.speaker, cur.text ++ " " ++ seg.text⟩ rest
      else cur :: mergeLoop tol seg rest) ∧
    (cur.speaker = seg.speaker → seg.start - cur.stop = tol →
      mergeSegments tol [cur, seg] =
        [⟨cur.start, seg.stop, cur.speaker, cur.text ++ " " ++ seg.text⟩]) ∧
    (tol < seg.start - cur.stop → mergeSegments tol [cur, seg] = [cur, seg]) := by
  refine ⟨rfl, ?_, ?_⟩
  · intro hspk hgap
    simp [mergeSegments, mergeLoop, hspk, hgap]
  · intro hgap
    have hno : ¬(cur.speaker = seg.speaker ∧ seg.start - cur.stop ≤ tol) :=
      fun hc => absurd hc.2 (not_le.mpr hgap)
    simp only [mergeSegments, mergeLoop]
    rw [if_neg hno]

/-- Witness for C3: with the default 2.0 s tolerance, a same-speaker gap of
exactly 2.0 s merges into one turn with space-joined text, and a gap of
2.5 s does not merge. -/
theorem merge_extension_rule_witness :
    mergeSegments defaultGapTolerance
        [⟨0, 1, "SPEAKER_00", "hi"⟩, ⟨3, 4, "SPEAKER_00", "there"⟩] =
      [⟨0, 4, "SPEAKER_00", "hi there"⟩] ∧
    mergeSegments defaultGapTolerance
        [⟨0, 1, "SPEAKER_00", "hi"⟩, ⟨(7 : ℚ)/2, 4, "SPEAKER_00", "there"⟩] =
      [⟨0, 1, "SPEAKER_00", "hi"⟩, ⟨(7 : ℚ)/2, 4, "SPEAKER_00", "there"⟩] := by
  constructor
  · have h := (merge_extension_rule defaultGapTolerance
        ⟨0, 1, "SPEAKER_00", "hi"⟩ ⟨3, 4, "SPEAKER_00", "there"⟩ []).2.1
      rfl (by norm_num [defaultGapTolerance])
    exact h
  · have h := (merge_extension_rule defaultGapTolerance
        ⟨0, 1, "SPEAKER_00", "hi"⟩ ⟨(7 : ℚ)/2, 4, "SPEAKER_00", "there"⟩ []).2.2
      (by norm_num [defaultGapTolerance])
    exact h

/-- C4: with at most three embeddings the clustering step returns one
singleton cluster per embedding — the labels `0, 1, …, n-1`, pairwise
distinct, one per embedding — and the result does not depend on the
agglomerative-clustering collaborator at all. -/
theorem cluster_small_input (attempt attempt' : ℕ → Option (List ℕ × ℚ)) (n : ℕ)
    (h : n ≤ 3) :
    clusterSpeakers attempt n = List.range n ∧
    (clusterSpeakers attempt n).Nodup ∧
    (clusterSpeakers attempt n).length = n ∧
    clusterSpeakers attempt n = clusterSpeakers attempt' n := by
  have e : clusterSpeakers attempt n = List.range n := by simp [clusterSpeakers, h]
  have e' : clusterSpeakers attempt' n = List.range n := by simp [clusterSpeakers, h]
  exact ⟨e, e ▸ List.nodup_range n, e ▸ List.length_range n, e.trans e'.symm⟩

/-- Witness for C4 at three embeddings, with an always-failing and an
always-succeeding clustering collaborator. -/
theorem cluster_small_input_witness :
    clusterSpeakers (fun _ => none) 3 = List.range 3 ∧
    (clusterSpeakers (fun _ => none) 3).Nodup ∧
    (clusterSpeakers (fun _ => none) 3).length = 3 ∧
    clusterSpeakers (fun _ => none) 3 =
      clusterSpeakers (fun k => some (List.range k, 1)) 3 :=
  cluster_small_input (fun _ => none) (fun k => some (List.range k, 1)) 3 (by norm_num)

/-- C6: when anything inside `_combine_audio`'s `try` block raises — in
particular the external resample call — the exception is not propagated:
both raw streams are saved as two separate artifacts, each at its own sample
rate and channel count. -/
theorem combine_fallback (resample : List ℤ → ℕ → ℕ → Except String (List ℤ))
    (mic sys : StreamData) (e : String)
    (hfail : combineInner resample mic.chunks.flatten sys.chunks.flatten
        mic.rate sys.rate mic.channels sys.channels = Except.error e)
    (hmic : mic.chunks ≠ []) (hsys : sys.chunks ≠ []) :
    combineAudio resample mic sys =
      [⟨ArtifactTag.micRaw, mic.chunks.flatten, mic.rate, mic.channels⟩,
       ⟨ArtifactTag.sysRaw, sys.chunks.flatten, sys.rate, sys.channels⟩] := by
  simp [combineAudio, hfail, hmic, hsys]

/-- Witness for C6: a run with differing rates whose resample call raises
ends with the two per-stream artifacts. -/
theorem combine_fallback_witness :
    combineAudio failingResample ⟨[[0]], 16000, 1⟩ ⟨[[0]], 48000, 1⟩ =
      [⟨ArtifactTag.micRaw, [0], 16000, 1⟩, ⟨ArtifactTag.sysRaw, [0], 48000, 1⟩] := by
  have h := combine_fallback failingResample ⟨[[0]], 16000, 1⟩ ⟨[[0]], 48000, 1⟩
    "resample failed" rfl (by simp) (by simp)
  simpa using h

/-- The head of the merge walk's output keeps the start time and speaker of
the seeding `current` (only its end and text are ever extended). -/
theorem mergeLoop_head (tol : ℚ) (c : Segment) (l : List Segment) :
    ∃ h t, mergeLoop tol c l = h :: t ∧ h.start = c.start ∧ h.speaker = c.speaker := by
  induction l generalizing c with
  | nil => exact ⟨c, [], rfl, rfl, rfl⟩
  | cons seg rest ih =>
    by_cases hc : c.speaker = seg.speaker ∧ seg.start - c.stop ≤ tol
    · obtain ⟨h, t, he, hs, hsp⟩ := ih ⟨c.start, seg.stop, c.speaker, c.text ++ " " ++ seg.text⟩
      refine ⟨h, t, ?_, hs, hsp⟩
      simp only [mergeLoop]
      rw [if_pos hc]
      exact he
    · refine ⟨c, mergeLoop tol seg rest, ?_, rfl, rfl⟩
      simp only [mergeLoop]
      rw [if_neg hc]

/-- Any two adjacent turns of the merge walk's output violate the extension
condition (otherwise the second would have been merged into the first). -/
theorem mergeLoop_chain (tol : ℚ) (c : Segment) (l : List Segment) :
    List.Chain' (splitsTurn tol) (mergeLoop tol c l) := by
  induction l generalizing c with
  | nil => simp [mergeLoop]
  | cons seg rest ih =>
    by_cases hc : c.speaker = seg.speaker ∧ seg.start - c.stop ≤ tol
    · simp only [mergeLoop]
      rw [if_pos hc]
      exact ih _
    · simp only [mergeLoop]
      rw [if_neg hc]
      obtain ⟨h, t, he, hs, hsp⟩ := mergeLoop_head tol seg rest
      rw [he]
      have hsplit : splitsTurn tol c h := by
        unfold splitsTurn
        rw [hs, hsp]
        exact hc
      exact List.chain'_cons.mpr ⟨hsplit, he ▸ ih seg⟩

/-- On a list whose adjacent pairs all violate the extension condition, the
merge walk is the identity. -/
theorem mergeLoop_of_chain (tol : ℚ) (c : Segment) (l : List Segment)
    (h : List.Chain' (splitsTurn tol) (c :: l)) : mergeLoop tol c l = c :: l := by
  induction l generalizing c with
  | nil => rfl
  | cons s t ih =>
    rw [List.chain'_cons] at h
    have hno : ¬(c.speaker = s.speaker ∧ s.start - c.stop ≤ tol) := h.1
    simp only [mergeLoop]
    rw [if_neg hno, ih s h.2]

/-- C8: the merging step is idempotent — running `_merge_segments` on its own
output returns that output unchanged (same starts, ends, speakers, texts). -/
theorem merge_idempotent (tol : ℚ) (segs : List Segment) :
    mergeSegments tol (mergeSegments tol segs) = mergeSegments tol segs := by
  cases segs with
  | nil => rfl
  | cons s rest =>
    obtain ⟨h, t, he, _, _⟩ := mergeLoop_head tol s rest
    have hch := mergeLoop_chain tol s rest
    rw [he] at hch
    have e1 : mergeSegments tol (s :: rest) = h :: t := he
    rw [e1]
    have e2 : mergeSegments tol (h :: t) = mergeLoop tol h t := rfl
    rw [e2, mergeLoop_of_chain tol h t hch]

/-- C9: whenever the external clustering collaborator returns one label per
embedding (sklearn's `fit_predict` contract), `_cluster_speakers` returns a
label list whose length equals the number of embeddings on every path: the
small-input singleton path, the silhouette-selected path, and the fallback
when every attempt failed. -/
theorem cluster_length (attempt : ℕ → Option (List ℕ × ℚ)) (n : ℕ)
    (h : ∀ k labels s, attempt k = some (labels, s) → labels.length = n) :
    (clusterSpeakers attempt n).length = n := by
  unfold clusterSpeakers
  by_cases hn : n ≤ 3
  · rw [if_pos hn]
    exact List.length_range n
  · rw [if_neg hn]
    have key : ∀ (ks : List ℕ) (acc : Option (List ℕ) × ℚ),
        (∀ l, acc.1 = some l → l.length = n) →
        ∀ l, (ks.foldl (clusterStep attempt) acc).1 = some l → l.length = n := by
      intro ks
      induction ks with
      | nil => intro acc hacc; exact hacc
      | cons k ks ih =>
        intro acc hacc
        rw [List.foldl_cons]
        refine ih (clusterStep attempt acc k) ?_
        intro l hl
        unfold clusterStep at hl
        cases hk : attempt k with
        | none => rw [hk] at hl; exact hacc l hl
        | some p =>
          obtain ⟨labels, score⟩ := p
          rw [hk] at hl
          have hl' : (if score > acc.2 then ((some labels : Option (List ℕ)), score)
              else acc).1 = some l := hl
          by_cases hsc : score > acc.2
          · rw [if_pos hsc] at hl'
            have : labels = l := Option.some.inj hl'
            exact this ▸ h k labels score hk
          · rw [if_neg hsc] at hl'
            exact hacc l hl'
    cases hb : ((List.range' 2 (min 6 n - 1)).foldl (clusterStep attempt)
        ((none : Option (List ℕ)), (-1 : ℚ))).1 with
    | none => simp only [hb]; exact List.length_range n
    | some labels =>
      simp only [hb]
      exact key _ _ (by intro l hl; cases hl) labels hb

/-- Witness for C9: a collaborator returning four labels for four embeddings
yields a four-label result. -/
theorem cluster_length_witness :
    (clusterSpeakers (fun _ => some ([0, 0, 1, 1], 1/2)) 4).length = 4 := by
  refine cluster_length (fun _ => some ([0, 0, 1, 1], 1/2)) 4 ?_
  intro k labels s hk
  have h1 : ([0, 0, 1, 1], (1/2 : ℚ)) = (labels, s) := Option.some.inj hk
  have h2 : labels = [0, 0, 1, 1] := (congrArg Prod.fst h1).symm
  rw [h2]
  rfl

/-- Reads below the original heap length are untouched by the heap-level
merge walk, and the heap never shrinks (the walk mutates only the
`.copy()`-allocated working cell and allocates at the end). -/
theorem mergeLoopH_frame (tol : ℚ) (addrs : List ℕ) :
    ∀ (heap : List Segment) (curAddr n : ℕ), n ≤ curAddr → n ≤ heap.length →
      n ≤ (mergeLoopH tol heap curAddr addrs).1.length ∧
      ∀ j, j < n →
        (mergeLoopH tol heap curAddr addrs).1.getD j defaultSeg = heap.getD j defaultSeg := by
  induction addrs with
  | nil =>
    intro heap curAddr n _ hlen
    exact ⟨hlen, fun j _ => rfl⟩
  | cons a rest ih =>
    intro heap curAddr n hn hlen
    simp only [mergeLoopH]
    by_cases hc : (heapGet heap curAddr).speaker = (heapGet heap a).speaker ∧
        (heapGet heap a).start - (heapGet heap curAddr).stop ≤ tol
    · rw [if_pos hc]
      obtain ⟨h1, h2⟩ := ih
        (heap.set curAddr
          { heapGet heap curAddr with
            stop := (heapGet heap a).stop
            text := (heapGet heap curAddr).text ++ " " ++ (heapGet heap a).text })
        curAddr n hn (by rw [List.length_set]; exact hlen)
      refine ⟨h1, fun j hj => ?_⟩
      rw [h2 j hj]
      rw [List.getD_eq_getElem?_getD, List.getD_eq_getElem?_getD]
      rw [List.getElem?_set_ne (Nat.ne_of_gt (lt_of_lt_of_le hj hn))]
    · rw [if_neg hc]
      have hlen' : n ≤ (heap ++ [heapGet heap a]).length := by
        rw [List.length_append]
        exact le_trans hlen (Nat.le_add_right _ _)
      obtain ⟨h1, h2⟩ := ih (heap ++ [heapGet heap a]) heap.length n hlen hlen'
      refine ⟨h1, fun j hj => ?_⟩
      rw [h2 j hj]
      rw [List.getD_eq_getElem?_getD, List.getD_eq_getElem?_getD]
      rw [List.getElem?_append_left (lt_of_lt_of_le hj hlen)]

/-- C10: the merging step never mutates its input dictionaries — after the
heap-level `_merge_segments` returns, every cell of the original heap (in
particular every input record, whatever addresses the input list holds)
still carries its original start, end, speaker and text; all writes go to the
`.copy()`-allocated cells. -/
theorem merge_never_mutates_input (tol : ℚ) (heap : List Segment) (addrs : List ℕ)
    (j : ℕ) (hj : j < heap.length) :
    ((mergeSegmentsH tol heap addrs).1).getD j defaultSeg = heap.getD j defaultSeg := by
  cases addrs with
  | nil => rfl
  | cons a rest =>
    have h := (mergeLoopH_frame tol rest (heap ++ [heapGet heap a]) heap.length heap.length
      le_rfl (by rw [List.length_append]; exact Nat.le_add_right _ _)).2 j hj
    have e : mergeSegmentsH tol heap (a :: rest) =
        mergeLoopH tol (heap ++ [heapGet heap a]) heap.length rest := rfl
    rw [e, h]
    rw [List.getD_eq_getElem?_getD, List.getD_eq_getElem?_getD,
      List.getElem?_append_left hj]

/-- Witness for C10: a two-record heap merged along both addresses leaves
record 0 unchanged. -/
theorem merge_never_mutates_input_witness :
    ((mergeSegmentsH defaultGapTolerance
        [⟨0, 1, "SPEAKER_00", "a"⟩, ⟨(3 : ℚ)/2, 2, "SPEAKER_00", "b"⟩] [0, 1]).1).getD 0
        defaultSeg =
      ([⟨0, 1, "SPEAKER_00", "a"⟩, ⟨(3 : ℚ)/2, 2, "SPEAKER_00", "b"⟩] :
        List Segment).getD 0 defaultSeg :=
  merge_never_mutates_input defaultGapTolerance
    [⟨0, 1, "SPEAKER_00", "a"⟩, ⟨(3 : ℚ)/2, 2, "SPEAKER_00", "b"⟩] [0, 1] 0 (by norm_num)

/-- Evaluation of `combineInner` for two mono streams at one common rate:
the resampling branch is skipped and both arrays are trimmed to
`int(min(durations) * sys_rate)` samples before the 50/50 mix. -/
theorem combineInner_same_rate (resample : List ℤ → ℕ → ℕ → Except String (List ℤ))
    (a b : List ℤ) (r : ℕ) (hr : r ≠ 0) :
    combineInner resample a b r r 1 1 =
      if (a.take (⌊min ((a.length : ℚ)/r) ((b.length : ℚ)/r) * r⌋).toNat).length =
          (b.take (⌊min ((a.length : ℚ)/r) ((b.length : ℚ)/r) * r⌋).toNat).length then
        Except.ok (List.zipWith (fun x y => Int.tdiv (x + y) 2)
          (a.take (⌊min ((a.length : ℚ)/r) ((b.length : ℚ)/r) * r⌋).toNat)
          (b.take (⌊min ((a.length : ℚ)/r) ((b.length : ℚ)/r) * r⌋).toNat))
      else Except.error "operands could not be broadcast together" := by
  unfold combineInner toMono
  simp only [if_neg (show ¬((1 : ℕ) = 2) by norm_num)]
  simp only [if_neg (show ¬(r = 0 ∨ r = 0) from fun hor => hr (hor.elim id id))]
  simp only [if_neg (show ¬(r ≠ r) from fun h => h rfl)]

/-- Evaluation of `combineInner` for two mono streams at different rates with
a successfully resampled mic array. -/
theorem combineInner_diff_rate (resample : List ℤ → ℕ → ℕ → Except String (List ℤ))
    (a b : List ℤ) (rm rs : ℕ) (hm : rm ≠ 0) (hs : rs ≠ 0) (hne : rm ≠ rs)
    (micRes : List ℤ) (hres : resample a rm rs = Except.ok micRes) :
    combineInner resample a b rm rs 1 1 =
      if (micRes.take (⌊min ((a.length : ℚ)/rm) ((b.length : ℚ)/rs) * rs⌋).toNat).length =
          (b.take (⌊min ((a.length : ℚ)/rm) ((b.length : ℚ)/rs) * rs⌋).toNat).length then
        Except.ok (List.zipWith (fun x y => Int.tdiv (x + y) 2)
          (micRes.take (⌊min ((a.length : ℚ)/rm) ((b.length : ℚ)/rs) * rs⌋).toNat)
          (b.take (⌊min ((a.length : ℚ)/rm) ((b.length : ℚ)/rs) * rs⌋).toNat))
      else Except.error "operands could not be broadcast together" := by
  unfold combineInner toMono
  simp only [if_neg (show ¬((1 : ℕ) = 2) by norm_num)]
  simp only [if_neg (show ¬(rm = 0 ∨ rs = 0) from fun hor => hor.elim hm hs)]
  simp only [if_pos hne, hres]

/-- C1 (amended): mixing two equal-length, equal-rate mono signals produces
an output of the same length whose every sample is `(a[i] + b[i]) / 2`
rounded *toward zero* (numpy's `astype(np.int16)` truncation), not
round-to-nearest. -/
theorem mix_is_truncated_average (a b : List ℤ) (r : ℕ)
    (hlen : a.length = b.length) (hr : 0 < r) :
    combineInner resampleOk a b r r 1 1 =
      Except.ok (List.zipWith (fun x y => Int.tdiv (x + y) 2) a b) ∧
    (List.zipWith (fun x y => Int.tdiv (x + y) 2) a b).length = a.length := by
  have hr0 : (r : ℚ) ≠ 0 := Nat.cast_ne_zero.mpr hr.ne'
  have hfloor : (⌊min ((a.length : ℚ)/r) ((b.length : ℚ)/r) * r⌋).toNat = a.length := by
    rw [hlen, min_self, div_mul_cancel₀ _ hr0, Int.floor_natCast, Int.toNat_natCast]
  constructor
  · rw [combineInner_same_rate resampleOk a b r hr.ne']
    rw [hfloor, List.take_length]
    have hb : List.take a.length b = b := by rw [hlen]; exact List.take_length b
    rw [hb, if_pos hlen]
  · rw [List.length_zipWith, hlen, min_self]

/-- Counterexample to C1 as stated: mixing the one-sample signals `[1]` and
`[2]` yields `[1]`, but `round((1 + 2) / 2) = 2`. -/
theorem mix_not_round_to_nearest :
    combineInner resampleOk [(1 : ℤ)] [(2 : ℤ)] 1 1 1 1 = Except.ok [(1 : ℤ)] ∧
    (1 : ℤ) ≠ round (((1 : ℚ) + 2) / 2) := by
  constructor
  · rw [combineInner_same_rate resampleOk [(1 : ℤ)] [(2 : ℤ)] 1 one_ne_zero]
    have hfloor : (⌊min (((List.length [(1 : ℤ)] : ℕ) : ℚ)/(1 : ℕ))
        (((List.length [(2 : ℤ)] : ℕ) : ℚ)/(1 : ℕ)) * ((1 : ℕ) : ℚ)⌋).toNat = 1 := by
      norm_num
    rw [hfloor]
    rfl
  · have : round (((1 : ℚ) + 2) / 2) = 2 := by
      norm_num [round_eq]
    rw [this]
    norm_num

/-- Witness for C1 (amended) on two concrete two-sample signals at 48 kHz:
`[1,2]` and `[3,5]` mix to `[trunc(4/2), trunc(7/2)] = [2, 3]`. -/
theorem mix_is_truncated_average_witness :
    combineInner resampleOk [(1 : ℤ), 2] [(3 : ℤ), 5] 48000 48000 1 1 =
      Except.ok (List.zipWith (fun x y => Int.tdiv (x + y) 2) [(1 : ℤ), 2] [(3 : ℤ), 5]) ∧
    (List.zipWith (fun x y => Int.tdiv (x + y) 2) [(1 : ℤ), 2] [(3 : ℤ), 5]).length =
      ([(1 : ℤ), 2] : List ℤ).length :=
  mix_is_truncated_average [1, 2] [3, 5] 48000 rfl (by norm_num)

/-- C2 (amended): for positive rates the combine step always succeeds and
aligns by truncation, never padding: the output holds exactly
`int(min(mic_dur, sys_dur) * sys_rate)` samples, so its duration is
`min(mic_dur, sys_dur)` rounded *down* to a whole number of samples at the
system rate — at most `min` and within one sample below it.  (When the
minimum is a whole number of system-rate samples, as in the 5.0 s / 7.0 s
scenario, the output duration is exactly the minimum.) -/
theorem combine_trim_by_truncation (micData sysData : List ℤ) (micRate sysRate : ℕ)
    (hm : 0 < micRate) (hs : 0 < sysRate) :
    ∃ out, combineInner resampleOk micData sysData micRate sysRate 1 1 = Except.ok out ∧
      out.length =
        (⌊min ((micData.length : ℚ)/micRate) ((sysData.length : ℚ)/sysRate) * sysRate⌋).toNat ∧
      (out.length : ℚ) / sysRate ≤
        min ((micData.length : ℚ)/micRate) ((sysData.length : ℚ)/sysRate) ∧
      min ((micData.length : ℚ)/micRate) ((sysData.length : ℚ)/sysRate) <
        ((out.length : ℚ) + 1) / sysRate := by
  have hrs0 : ((sysRate : ℚ)) ≠ 0 := Nat.cast_ne_zero.mpr hs.ne'
  have hrsq : (0 : ℚ) < sysRate := by exact_mod_cast hs
  set D := min ((micData.length : ℚ)/micRate) ((sysData.length : ℚ)/sysRate) with hD
  have hD0 : 0 ≤ D := le_min (by positivity) (by positivity)
  have hx0 : (0 : ℚ) ≤ D * sysRate := mul_nonneg hD0 (by positivity)
  set t := (⌊D * (sysRate : ℚ)⌋).toNat with ht
  have htz : ((t : ℤ)) = ⌊D * (sysRate : ℚ)⌋ := Int.toNat_of_nonneg (Int.floor_nonneg.mpr hx0)
  have htle : (t : ℚ) ≤ D * sysRate := by
    have := Int.floor_le (D * (sysRate : ℚ))
    rw [← htz] at this
    exact_mod_cast this
  have htgt : D * sysRate < (t : ℚ) + 1 := by
    have := Int.lt_floor_add_one (D * (sysRate : ℚ))
    rw [← htz] at this
    exact_mod_cast this
  -- the system array always holds at least t samples
  have hts : t ≤ sysData.length := by
    have h1 : D * (sysRate : ℚ) ≤ sysData.length := by
      calc D * (sysRate : ℚ) ≤ ((sysData.length : ℚ)/sysRate) * sysRate :=
            mul_le_mul_of_nonneg_right (min_le_right _ _) (by positivity)
        _ = sysData.length := div_mul_cancel₀ _ hrs0
    have h2 : ⌊D * (sysRate : ℚ)⌋ ≤ (sysData.length : ℤ) := by
      have := Int.floor_le_floor h1
      rwa [Int.floor_natCast] at this
    exact Int.toNat_le.mpr h2
  -- duration bounds, given the output length is t
  have hbounds : ∀ out : List ℤ, out.length = t →
      (out.length : ℚ) / sysRate ≤ D ∧ D < ((out.length : ℚ) + 1) / sysRate := by
    intro out hlen
    rw [hlen]
    constructor
    · rw [div_le_iff₀ hrsq]
      exact htle
    · rw [lt_div_iff₀ hrsq]
      exact htgt
  by_cases hrate : micRate = sysRate
  · -- same rate: no resampling, mic array itself is trimmed
    subst hrate
    have htm : t ≤ micData.length := by
      have h1 : D * (micRate : ℚ) ≤ micData.length := by
        calc D * (micRate : ℚ) ≤ ((micData.length : ℚ)/micRate) * micRate :=
              mul_le_mul_of_nonneg_right (min_le_left _ _) (by positivity)
          _ = micData.length := div_mul_cancel₀ _ hrs0
      have h2 : ⌊D * (micRate : ℚ)⌋ ≤ (micData.length : ℤ) := by
        have := Int.floor_le_floor h1
        rwa [Int.floor_natCast] at this
      exact Int.toNat_le.mpr h2
    have e1 : (micData.take t).length = t := by
      rw [List.length_take]
      exact min_eq_left htm
    have e2 : (sysData.take t).length = t := by
      rw [List.length_take]
      exact min_eq_left hts
    rw [combineInner_same_rate resampleOk micData sysData micRate hm.ne']
    rw [← hD, ← ht, if_pos (e1.trans e2.symm)]
    have hlen : (List.zipWith (fun x y => Int.tdiv (x + y) 2)
        (micData.take t) (sysData.take t)).length = t := by
      rw [List.length_zipWith, e1, e2, min_self]
    exact ⟨_, rfl, hlen, (hbounds _ hlen).1, (hbounds _ hlen).2⟩
  · -- different rates: the mic array is resampled to ceil(m·rs/rm) samples first
    have hrm0 : ((micRate : ℚ)) ≠ 0 := Nat.cast_ne_zero.mpr hm.ne'
    have hresLen : (resampleModel micData micRate sysRate).length =
        resampleLen micData.length micRate sysRate := by
      rw [resampleModel, List.length_map, List.length_range]
    have htm : t ≤ (resampleModel micData micRate sysRate).length := by
      have h1 : D * (sysRate : ℚ) ≤
          ((micData.length * sysRate : ℕ) : ℚ) / ((micRate : ℕ) : ℚ) := by
        calc D * (sysRate : ℚ) ≤ ((micData.length : ℚ)/micRate) * sysRate :=
              mul_le_mul_of_nonneg_right (min_le_left _ _) (by positivity)
          _ = ((micData.length * sysRate : ℕ) : ℚ) / ((micRate : ℕ) : ℚ) := by
              push_cast
              ring
      have h2 : ⌊D * (sysRate : ℚ)⌋ ≤ ((micData.length * sysRate) / micRate : ℕ) := by
        have hf := Int.floor_le_floor h1
        have : ⌊((micData.length * sysRate : ℕ) : ℚ) / ((micRate : ℕ) : ℚ)⌋ =
            (((micData.length * sysRate) / micRate : ℕ) : ℤ) := by
          rw [show (((micData.length * sysRate : ℕ) : ℚ)) =
              (((micData.length * sysRate : ℕ) : ℤ) : ℚ) by push_cast; ring]
          rw [Rat.floor_intCast_div_natCast]
          exact (Int.ofNat_div _ _).symm
        rw [this] at hf
        exact hf
      have h3 : (micData.length * sysRate) / micRate ≤
          resampleLen micData.length micRate sysRate := by
        unfold resampleLen
        exact Nat.div_le_div_right (by omega)
      rw [hresLen]
      exact le_trans (Int.toNat_le.mpr h2) h3
    have e1 : ((resampleModel micData micRate sysRate).take t).length = t := by
      rw [List.length_take]
      exact min_eq_left htm
    have e2 : (sysData.take t).length = t := by
      rw [List.length_take]
      exact min_eq_left hts
    rw [combineInner_diff_rate resampleOk micData sysData micRate sysRate
      hm.ne' hs.ne' hrate (resampleModel micData micRate sysRate) rfl]
    rw [← hD, ← ht, if_pos (e1.trans e2.symm)]
    have hlen : (List.zipWith (fun x y => Int.tdiv (x + y) 2)
        ((resampleModel micData micRate sysRate).take t) (sysData.take t)).length = t := by
      rw [List.length_zipWith, e1, e2, min_self]
    exact ⟨_, rfl, hlen, (hbounds _ hlen).1, (hbounds _ hlen).2⟩

/-- Counterexample to C2 as stated: one mic sample at 3 Hz (duration 1/3 s)
and one system sample at 2 Hz (duration 1/2 s) give a combined output of
`int(min(1/3, 1/2) * 2) = 0` samples — duration 0, not `min = 1/3`. -/
theorem trim_not_exact_min :
    combineInner resampleOk [(0 : ℤ)] [(0 : ℤ)] 3 2 1 1 = Except.ok ([] : List ℤ) ∧
    ((List.length [(0 : ℤ)] : ℚ)/3 ≠ (List.length [(0 : ℤ)] : ℚ)/2) ∧
    ((List.length ([] : List ℤ) : ℚ)/2 ≠
      min ((List.length [(0 : ℤ)] : ℚ)/3) ((List.length [(0 : ℤ)] : ℚ)/2)) := by
  refine ⟨?_, by norm_num, by norm_num [min_def]⟩
  rw [combineInner_diff_rate resampleOk [(0 : ℤ)] [(0 : ℤ)] 3 2 (by norm_num) (by norm_num)
    (by norm_num) (resampleModel [(0 : ℤ)] 3 2) rfl]
  norm_num [min_def]

/-- Witness for C2 (amended): the spec's own scenario — a 5.0 s mic stream at
16 kHz against a 7.0 s system stream at 48 kHz — yields exactly
240000 samples, i.e. exactly 5.0 s at 48 kHz. -/
theorem combine_trim_by_truncation_witness :
    ∃ out, combineInner resampleOk (List.replicate 80000 (0 : ℤ))
        (List.replicate 336000 (0 : ℤ)) 16000 48000 1 1 = Except.ok out ∧
      out.length = 240000 ∧ (out.length : ℚ)/48000 = 5 := by
  obtain ⟨out, h1, h2, _, _⟩ := combine_trim_by_truncation
    (List.replicate 80000 (0 : ℤ)) (List.replicate 336000 (0 : ℤ)) 16000 48000
    (by norm_num) (by norm_num)
  have hlen : out.length = 240000 := by
    rw [h2]
    norm_num [min_def]
    rfl
  exact ⟨out, h1, hlen, by rw [hlen]; norm_num⟩

/-- Floor commutes with division by 60 (needed to relate the code's
`int(q % 60)` to the seconds-in-minute value `⌊q⌋ mod 60`). -/
theorem floor_div_sixty (q : ℚ) : ⌊q / 60⌋ = ⌊q⌋ / 60 := by
  rw [Int.floor_eq_iff]
  constructor
  · have h1 : ((⌊q⌋ / 60) * 60 : ℤ) ≤ ⌊q⌋ := by omega
    rw [le_div_iff₀ (by norm_num : (0 : ℚ) < 60)]
    calc ((⌊q⌋ / 60 : ℤ) : ℚ) * 60 = (((⌊q⌋ / 60) * 60 : ℤ) : ℚ) := by push_cast; ring
      _ ≤ ((⌊q⌋ : ℤ) : ℚ) := by exact_mod_cast h1
      _ ≤ q := Int.floor_le q
  · have h1 : (⌊q⌋ : ℤ) + 1 ≤ (⌊q⌋ / 60 + 1) * 60 := by omega
    rw [div_lt_iff₀ (by norm_num : (0 : ℚ) < 60)]
    calc q < ((⌊q⌋ : ℤ) : ℚ) + 1 := Int.lt_floor_add_one q
      _ = (((⌊q⌋ : ℤ) + 1 : ℤ) : ℚ) := by push_cast; ring
      _ ≤ (((⌊q⌋ / 60 + 1) * 60 : ℤ) : ℚ) := by exact_mod_cast h1
      _ = (((⌊q⌋ / 60 : ℤ) : ℚ) + 1) * 60 := by push_cast; ring

/-- The code's seconds field `int(q % 60)` equals `⌊q⌋ mod 60`. -/
theorem floor_mod_sixty (q : ℚ) : ⌊q - 60 * ((⌊q / 60⌋ : ℤ) : ℚ)⌋ = ⌊q⌋ % 60 := by
  have h1 : q - 60 * ((⌊q / 60⌋ : ℤ) : ℚ) = q - ((60 * ⌊q / 60⌋ : ℤ) : ℚ) := by
    push_cast
    ring
  rw [h1, Int.floor_sub_int, floor_div_sixty]
  omega

/-- Each rendered line of `format_output` agrees with the spec-side line. -/
theorem formatLine_eq_specLine (s : Segment) : formatLine s = specLine s := by
  unfold formatLine specLine
  rw [floor_mod_sixty, floor_mod_sixty]
  by_cases htext : s.text = ""
  · rw [if_neg (not_not_intro htext), if_neg (not_not_intro htext)]
  · rw [if_pos htext, if_pos htext]
    simp only [String.append_assoc]
    rfl

/-- C5 (amended): the formatter renders the turns in their given
chronological order, one line per turn joined by single newlines, each line
being `SPEAKER <NN> (MM:SS - MM:SS): <text>` with `MM = ⌊t/60⌋` zero-padded
to at least two digits (minutes grow past 59; no `HH:MM:SS` switch),
`SS = ⌊t⌋ mod 60`, and the `: <text>` tail dropped for empty text. -/
theorem format_output_contract (turns : List Segment) :
    formatOutput turns = specRender turns := by
  unfold formatOutput specRender
  rw [funext formatLine_eq_specLine]

/-- Counterexample to C5 as stated: two turns past the one-hour mark render
with growing minutes (`61:40`), a space instead of the underscore, spaced
dashes and a single separating newline — not `SPEAKER_<NN>`, `HH:MM:SS`
timestamps and a blank separating line. -/
theorem format_output_cex :
    formatOutput [⟨3700, 3705, "SPEAKER_00", "hi"⟩, ⟨3710, 3720, "SPEAKER_01", "yo"⟩] =
      "SPEAKER 00 (61:40 - 61:45): hi\nSPEAKER 01 (61:50 - 62:00): yo" ∧
    formatOutput [⟨3700, 3705, "SPEAKER_00", "hi"⟩, ⟨3710, 3720, "SPEAKER_01", "yo"⟩] ≠
      "SPEAKER_00 (01:01:40-01:01:45): hi\n\nSPEAKER_01 (01:01:50-01:02:00): yo" := by
  have e1 : (⌊(3700 : ℚ) / 60⌋ : ℤ) = 61 := by norm_num
  have e2 : (⌊(3700 : ℚ) - 60 * ((61 : ℤ) : ℚ)⌋ : ℤ) = 40 := by norm_num
  have e3 : (⌊(3705 : ℚ) / 60⌋ : ℤ) = 61 := by norm_num
  have e4 : (⌊(3705 : ℚ) - 60 * ((61 : ℤ) : ℚ)⌋ : ℤ) = 45 := by norm_num
  have e5 : (⌊(3710 : ℚ) / 60⌋ : ℤ) = 61 := by norm_num
  have e6 : (⌊(3710 : ℚ) - 60 * ((61 : ℤ) : ℚ)⌋ : ℤ) = 50 := by norm_num
  have e7 : (⌊(3720 : ℚ) / 60⌋ : ℤ) = 62 := by norm_num
  have e8 : (⌊(3720 : ℚ) - 60 * ((62 : ℤ) : ℚ)⌋ : ℤ) = 0 := by norm_num
  have h : formatOutput [⟨3700, 3705, "SPEAKER_00", "hi"⟩, ⟨3710, 3720, "SPEAKER_01", "yo"⟩] =
      "SPEAKER 00 (61:40 - 61:45): hi\nSPEAKER 01 (61:50 - 62:00): yo" := by
    unfold formatOutput formatLine
    simp only [List.map]
    rw [e1, e2, e3, e4, e5, e6, e7, e8]
    decide
  exact ⟨h, by rw [h]; decide⟩

/-- C7: when neither stream captured any chunk, `stop_recording` resolves to
the no-audio-captured outcome and writes no artifact at all. -/
theorem stop_no_audio (resample : List ℤ → ℕ → ℕ → Except String (List ℤ))
    (micRate sysRate micCh sysCh : ℕ) :
    stopRecording resample ⟨[], micRate, micCh⟩ ⟨[], sysRate, sysCh⟩ =
      (SaveOutcome.noAudioCaptured, []) := by
  simp [stopRecording]

end OfflineMeetingTranscriber
